import Mathlib

/-!
Verification development for the openai-api-request-response-logger gateway.

The Go sources are shallowly embedded: Go byte strings become `List Nat`
(one entry per byte), `io.Reader` byte streams become the list of byte
groups returned by successive reads, fallible reads become `Except`, and
the in-memory record table becomes an association list.  Every definition
mirrors one Go function and is named after it where Lean allows.
-/

namespace OpenAILogger

/-- A Go `string` / `[]byte`, modelled as the list of its byte values. -/
abbrev Bytes := List Nat

/-- Convert a Lean string literal into its byte list (ASCII literals only). -/
def strBytes (s : String) : Bytes := s.toList.map Char.toNat

/-- `strings.Contains(hay, needle)`: substring test on byte strings. -/
def hasSub (hay needle : Bytes) : Bool :=
  match hay with
  | [] => needle.isEmpty
  | b :: t => needle.isPrefixOf (b :: t) || hasSub t needle

/-- ASCII fragment of `strings.ToLower`, applied bytewise. -/
def toLowerBytes (s : Bytes) : Bytes :=
  s.map (fun b => if 65 ≤ b ∧ b ≤ 90 then b + 32 else b)

/-! ## Capture interceptor (src/internal/proxy/proxy.go) -/

/-- Result of `Gateway.captureRequestBody` (proxy.go lines 112-131):
`body, err := io.ReadAll(io.LimitReader(r.Body, maxBytes))` reads at most
`maxBytes` bytes, the record stores `body` and its length, and
`r.Body = io.NopCloser(bytes.NewReader(body))` makes `body` the reader the
reverse proxy forwards upstream. -/
structure ReqCapture where
  requestBody : Bytes
  sizeReqBytes : Nat
  forwardedBody : Bytes
deriving DecidableEq

/-- `Gateway.captureRequestBody` on a client body that reads successfully. -/
def captureRequestBody (maxBytes : Nat) (clientBody : Bytes) : ReqCapture :=
  let body := clientBody.take maxBytes
  { requestBody := body
    sizeReqBytes := body.length
    forwardedBody := body }

/-- Client-visible outcome of the request phase of `Gateway.ServeHTTP`. -/
inductive ServeOutcome where
  | response (forwardedBody : Bytes)
  | httpError (status : Nat) (msg : String)
deriving DecidableEq

/-- Whether the outcome is an HTTP error written by the gateway itself. -/
def ServeOutcome.isHttpError : ServeOutcome → Bool
  | .httpError _ _ => true
  | .response _ => false

/-- Request phase of `Gateway.ServeHTTP` (proxy.go lines 73-78): the client
body either yields its bytes or fails to read; on failure the handler logs
and answers `http.Error(w, "Failed to process request", 500)`, otherwise the
captured bytes are forwarded. -/
def serveHTTPRequestPhase (maxBytes : Nat) (clientBody : Except Unit Bytes) :
    ServeOutcome :=
  match clientBody with
  | .error _ => .httpError 500 "Failed to process request"
  | .ok body => .response (captureRequestBody maxBytes body).forwardedBody

/-- Mutable state of `streamCapture` (proxy.go lines 221-240): the shared
capture buffer and the ordered chunk list. -/
structure StreamCaptureState where
  buffer : Bytes
  chunks : List Bytes
deriving DecidableEq

/-- `streamCapture.Read` (proxy.go lines 229-240) after the inner read
returned the byte group `p`: when `n > 0` and the buffer is still below
`maxSize`, the whole group is appended both as one chunk and to the buffer;
otherwise capture state is unchanged.  The bytes `p` themselves are returned
to the caller unchanged in either case. -/
def streamCaptureRead (maxSize : Nat) (st : StreamCaptureState) (p : Bytes) :
    StreamCaptureState :=
  if 0 < p.length ∧ st.buffer.length < maxSize then
    { buffer := st.buffer ++ p, chunks := st.chunks ++ [p] }
  else st

/-- Folding `streamCapture.Read` over the whole sequence of upstream reads. -/
def streamCaptureRun (maxSize : Nat) (reads : List Bytes) : StreamCaptureState :=
  reads.foldl (streamCaptureRead maxSize) ⟨[], []⟩

/-- `io.TeeReader(resp.Body, &buf)` (proxy.go line 160): every read is
appended to the buffer unconditionally. -/
def teeReaderRun (reads : List Bytes) : Bytes :=
  reads.foldl (· ++ ·) []

/-- Stream classification in `captureResponseBody` (proxy.go lines 140-143):
Content-Type contains `text/event-stream` or `application/x-ndjson`, or the
Transfer-Encoding header equals `chunked`. -/
def classifyStream (contentType transferEncoding : Bytes) : Bool :=
  hasSub contentType (strBytes "text/event-stream") ||
  hasSub contentType (strBytes "application/x-ndjson") ||
  transferEncoding == strBytes "chunked"

/-- The response-side record fields assigned by the `onClose` callback of
`captureResponseBody` (proxy.go lines 164-174). -/
structure ResCapture where
  stream : Bool
  responseBody : Bytes
  sizeResBytes : Nat
  responseChunks : List Bytes
deriving DecidableEq

/-- `Gateway.captureResponseBody` (proxy.go lines 134-177) followed by the
close of the wrapped body: streams go through `streamCapture.Read` per read,
non-streams through the unbounded tee; on close the callback snapshots
`record.ResponseBody = buf.String()`, `record.SizeResBytes = buf.Len()`, and
the chunk list when non-empty. -/
def captureResponseBody (maxSize : Nat) (contentType transferEncoding : Bytes)
    (reads : List Bytes) : ResCapture :=
  if classifyStream contentType transferEncoding then
    let st := streamCaptureRun maxSize reads
    { stream := true
      responseBody := st.buffer
      sizeResBytes := st.buffer.length
      responseChunks := if 0 < st.chunks.length then st.chunks else [] }
  else
    let buf := teeReaderRun reads
    { stream := false
      responseBody := buf
      sizeResBytes := buf.length
      responseChunks := [] }

/-- The byte groups actually delivered to the client during the response
phase: both `streamCapture.Read` and the tee return the read bytes `p`
unchanged, so we collect the returned groups while threading capture state. -/
def deliveredToClient (maxSize : Nat) (isStream : Bool) (reads : List Bytes) :
    List Bytes :=
  (reads.foldl
    (fun (acc : List Bytes × StreamCaptureState) p =>
      if isStream then (acc.1 ++ [p], streamCaptureRead maxSize acc.2 p)
      else (acc.1 ++ [p], acc.2))
    ([], ⟨[], []⟩)).1

/-- `bodyCapture` (proxy.go lines 246-263) with a ghost counter recording how
many times the `onClose` callback has run. -/
structure BodyCaptureState where
  closed : Bool
  onCloseRuns : Nat
  record : ResCapture
deriving DecidableEq

/-- `bodyCapture.Close` (proxy.go lines 257-263): on the first close the
callback runs (snapshotting the capture into the record); later closes are
no-ops for the callback. -/
def bodyCaptureClose (snapshot : ResCapture) (bc : BodyCaptureState) :
    BodyCaptureState :=
  if bc.closed then bc
  else { closed := true, onCloseRuns := bc.onCloseRuns + 1, record := snapshot }

/-! ## Storage data model (src/storage/memory/memory.go and the storage
package embedded after it) -/

/-- `storage.Record`: one captured request/response exchange.  `time.Time`
timestamps are abstracted to `Nat` (nanoseconds since the epoch), text
fields are byte strings. -/
structure Record where
  id : String
  timestamp : Nat
  provider : Bytes
  method : Bytes
  url : Bytes
  upstream : Bytes
  status : Int
  durationMS : Int
  requestBody : Bytes
  responseBody : Bytes
  stream : Bool
  responseChunks : List Bytes
  sizeReqBytes : Int
  sizeResBytes : Int
  modelHint : Bytes
  error : Option Bytes
deriving DecidableEq

/-- `storage.Query`: filter/sort/pagination specification.  `From`/`To` are
renamed `fromTime`/`toTime` because `from` is a Lean keyword. -/
structure Query where
  provider : Option Bytes
  modelLike : Option Bytes
  urlLike : Option Bytes
  statusEq : Option Int
  fromTime : Option Nat
  toTime : Option Nat
  textSearch : Option Bytes
  offset : Int
  limit : Int
  sort : String
deriving DecidableEq

/-- The query produced by `parseQuery` (src/unnamed/part_001 lines 245-249)
when no parameters are supplied: default limit 50, default sort `-ts`
(newest first), all other fields at their Go zero values. -/
def defaultQuery : Query :=
  { provider := none
    modelLike := none
    urlLike := none
    statusEq := none
    fromTime := none
    toTime := none
    textSearch := none
    offset := 0
    limit := 50
    sort := "-ts" }

/-- `Store.matchesQuery` (memory.go lines 131-165): AND of all provided
filters; `Before`/`After` on timestamps are strict, the substring filters
compare lowercased text. -/
def matchesQuery (record : Record) (q : Query) : Bool :=
  (match q.provider with
   | some p => record.provider == p
   | none => true) &&
  (match q.statusEq with
   | some s => record.status == s
   | none => true) &&
  (match q.fromTime with
   | some f => !(record.timestamp < f)
   | none => true) &&
  (match q.toTime with
   | some t => !(t < record.timestamp)
   | none => true) &&
  (match q.modelLike with
   | some m => hasSub (toLowerBytes record.modelHint) (toLowerBytes m)
   | none => true) &&
  (match q.urlLike with
   | some u => hasSub (toLowerBytes record.url) (toLowerBytes u)
   | none => true) &&
  (match q.textSearch with
   | some ts =>
     hasSub
       (toLowerBytes (record.requestBody ++ [32] ++ record.responseBody ++
         [32] ++ record.url ++ [32] ++ record.modelHint))
       (toLowerBytes ts)
   | none => true)

/-- Comparison used by `sortRecords` for `"-ts"`: the Go `less` function is
`records[i].Timestamp.After(records[j].Timestamp)`, whose associated total
preorder is `b.timestamp ≤ a.timestamp`. -/
def tsDescLe (a b : Record) : Bool := decide (b.timestamp ≤ a.timestamp)

/-- Comparison used by `sortRecords` in the default/`"ts"` branch. -/
def tsAscLe (a b : Record) : Bool := decide (a.timestamp ≤ b.timestamp)

/-- `Store.sortRecords` (memory.go lines 168-181): `sort.Slice` by timestamp,
descending for `"-ts"`, ascending otherwise. -/
def sortRecords (records : List Record) (sortBy : String) : List Record :=
  if sortBy = "-ts" then records.mergeSort tsDescLe
  else records.mergeSort tsAscLe

/-- The post-filter, post-sort match list built by `Store.List` (memory.go
lines 60-70) before pagination.  The record table's map iteration order is
arbitrary; the store contents are given as a list standing for one such
order. -/
def listMatches (records : List Record) (q : Query) : List Record :=
  sortRecords (records.filter (fun r => matchesQuery r q)) q.sort

/-- Page plus total match count returned by `Store.List`. -/
structure ListResult where
  page : List Record
  total : Nat
deriving DecidableEq

/-- `Store.List` (memory.go lines 56-91): filter, sort, then paginate with
`start := clamp-high(offset)` and `end := clamp(start+limit)`; the slice
`matches[start:end]` panics when `start` is negative, modelled as `none`. -/
def listRecords (records : List Record) (q : Query) : Option ListResult :=
  let ms := listMatches records q
  let total := ms.length
  let start : Int := if q.offset > (ms.length : Int) then ms.length else q.offset
  let stop : Int :=
    if q.limit ≤ 0 ∨ start + q.limit > (ms.length : Int) then ms.length
    else start + q.limit
  if start < 0 then none
  else some { page := (ms.drop start.toNat).take (stop - start).toNat
              total := total }

/-- `Store.Get` on the record table (memory.go lines 41-53), with the table
as an association list whose first matching key wins (the map lookup). -/
def getRecord (s : List (String × Record)) (id : String) : Option Record :=
  (s.find? (fun p => p.1 == id)).map (fun p => p.2)

/-! ## NDJSON export (memory.go lines 107-123 and the API handler) -/

/-- Lowercase hex digit byte, as produced by Go's `\u00xx` escapes. -/
def hexDig (n : Nat) : Nat := if n < 10 then 48 + n else 87 + n

/-- Per-byte escaping of `encoding/json` string marshalling with the
encoder's default HTML escaping: quote, backslash, newline, carriage
return and tab get two-byte escapes; other control bytes and `<` `>` `&`
become `\u00xx`; everything else passes through. -/
def escByte (b : Nat) : Bytes :=
  if b = 34 then [92, 34]
  else if b = 92 then [92, 92]
  else if b = 10 then [92, 110]
  else if b = 13 then [92, 114]
  else if b = 9 then [92, 116]
  else if b < 32 || b = 60 || b = 62 || b = 38 then
    [92, 117, 48, 48, hexDig (b / 16), hexDig (b % 16)]
  else [b]

/-- A JSON string literal: quote, escaped bytes, quote. -/
def jsonStr (s : Bytes) : Bytes := 34 :: (s.map escByte).flatten ++ [34]

/-- Decimal digits of `n` accumulated most-significant first. -/
def natDigsAux : Nat → Bytes → Bytes
  | 0, acc => acc
  | n + 1, acc => natDigsAux ((n + 1) / 10) ((48 + (n + 1) % 10) :: acc)
decreasing_by exact Nat.div_lt_self (Nat.succ_pos n) (by omega)

/-- Decimal byte encoding of a natural number. -/
def natBytes (n : Nat) : Bytes := if n = 0 then [48] else natDigsAux n []

/-- Decimal byte encoding of a Go integer. -/
def intBytes (i : Int) : Bytes :=
  if i < 0 then 45 :: natBytes i.natAbs else natBytes i.toNat

/-- JSON encoding of the timestamp: `time.Time` marshals as a quoted
RFC3339 string; with timestamps abstracted to `Nat` the quoted decimal
stands in for the quoted date text. -/
def tsField (t : Nat) : Bytes := 34 :: (natBytes t ++ [34])

/-- JSON booleans. -/
def boolBytes (b : Bool) : Bytes :=
  if b then strBytes "true" else strBytes "false"

/-- JSON array of strings, for the `response_chunks` field. -/
def jsonStrArr (xs : List Bytes) : Bytes :=
  91 :: (List.intersperse [44] (xs.map jsonStr)).flatten ++ [93]

/-- One `"key":value` member of the marshalled object. -/
def jfield (key : String) (v : Bytes) : Bytes := strBytes key ++ v

/-- The members of the marshalled `storage.Record` object, in struct order,
with the three `omitempty` fields present only when non-empty. -/
def encodeFields (r : Record) : List Bytes :=
  [jfield "\"id\":" (jsonStr (strBytes r.id)),
   jfield "\"ts\":" (tsField r.timestamp),
   jfield "\"provider\":" (jsonStr r.provider),
   jfield "\"method\":" (jsonStr r.method),
   jfield "\"url\":" (jsonStr r.url),
   jfield "\"upstream\":" (jsonStr r.upstream),
   jfield "\"status\":" (intBytes r.status),
   jfield "\"duration_ms\":" (intBytes r.durationMS),
   jfield "\"request_body\":" (jsonStr r.requestBody),
   jfield "\"response_body\":" (jsonStr r.responseBody),
   jfield "\"stream\":" (boolBytes r.stream)] ++
  (if r.responseChunks.isEmpty then []
   else [jfield "\"response_chunks\":" (jsonStrArr r.responseChunks)]) ++
  [jfield "\"size_req_bytes\":" (intBytes r.sizeReqBytes),
   jfield "\"size_res_bytes\":" (intBytes r.sizeResBytes)] ++
  (if r.modelHint.isEmpty then []
   else [jfield "\"model_hint\":" (jsonStr r.modelHint)]) ++
  (match r.error with
   | none => []
   | some e => [jfield "\"error\":" (jsonStr e)])

/-- `json.Encoder` marshalling of one `storage.Record`: brace (byte 123),
comma-separated members, closing brace (byte 125). -/
def encodeRecord (r : Record) : Bytes :=
  123 :: (List.intersperse [44] (encodeFields r)).flatten ++ [125]

/-- `Store.ExportNDJSON` (memory.go lines 107-123): run `List` on the query
as given, then `encoder.Encode` each page record — one JSON object followed
by a newline byte per record. -/
def exportNDJSON (records : List Record) (q : Query) : Option Bytes :=
  (listRecords records q).map
    (fun res => (res.page.map (fun r => encodeRecord r ++ [10])).flatten)

/-- `Handler.handleExport` (src/unnamed/part_001 lines 215-242): zero out
`Limit` and `Offset` before delegating to `ExportNDJSON`. -/
def handleExport (records : List Record) (q : Query) : Option Bytes :=
  exportNDJSON records { q with limit := 0, offset := 0 }

/-- Split a byte string at newline bytes (the reader's view of NDJSON
lines). -/
def splitNl : Bytes → List Bytes
  | [] => [[]]
  | b :: t =>
    match splitNl t with
    | [] => [[]]
    | h :: rest => if b = 10 then [] :: h :: rest else (b :: h) :: rest

/-! ## Chunk replay (src/unnamed/part_001 lines 161-197) -/

/-- Outcome of `Handler.handleRequestChunks` as seen by the HTTP caller. -/
inductive ChunksOutcome where
  | httpError (status : Nat) (msg : String)
  | sse (frames : List Bytes)
deriving DecidableEq

/-- One server-sent-event data frame: `fmt.Fprintf(w, "data: %s\n\n", chunk)`. -/
def sseFrame (chunk : Bytes) : Bytes := strBytes "data: " ++ chunk ++ [10, 10]

/-- `Handler.handleRequestChunks`: 404 `Record not found` when `Get` fails
with a not-found error, 404 `No chunks available for this record` when the
record is not a stream or has no captured chunks, otherwise one SSE data
frame per captured chunk in order. -/
def handleRequestChunks (s : List (String × Record)) (id : String) :
    ChunksOutcome :=
  match getRecord s id with
  | none => .httpError 404 "Record not found"
  | some record =>
    if !record.stream || record.responseChunks.isEmpty then
      .httpError 404 "No chunks available for this record"
    else
      .sse (record.responseChunks.map sseFrame)

/-! ## Reference-semantics model of the shallow record copies (memory.go
`Save`/`Get`, lines 30-53) -/

/-- A record as the Go runtime sees it for copy purposes: the struct
assignment `record := *r` copies scalar and string fields by value, but the
`ResponseChunks []string` field is a slice header; `chunksAddr` is the
address of its backing array in a shared heap. -/
structure RecordRef where
  id : String
  requestBody : Bytes
  chunksAddr : Nat
deriving DecidableEq

/-- The heap of slice backing arrays for response chunks. -/
abbrev ChunkHeap := Nat → List Bytes

/-- `Store.Save` (memory.go lines 30-38): `record := *r` then
`s.records[r.ID] = &record` — a shallow struct copy; the copy's
`chunksAddr` is the caller's. -/
def saveRef (s : List (String × RecordRef)) (r : RecordRef) :
    List (String × RecordRef) :=
  (r.id, r) :: s

/-- `Store.Get` (memory.go lines 41-53): map lookup followed by the shallow
copy `result := *record`; the first matching key is the map entry. -/
def getRef (s : List (String × RecordRef)) (id : String) : Option RecordRef :=
  (s.find? (fun p => p.1 == id)).map (fun p => p.2)

/-- The response chunks a reader observes through a record: the slice
header dereferences the heap. -/
def observedChunks (h : ChunkHeap) (r : RecordRef) : List Bytes :=
  h r.chunksAddr

/-- In-place mutation `rec.ResponseChunks[i] = v` performed through any
record whose slice points at `addr`. -/
def writeChunkAt (h : ChunkHeap) (addr i : Nat) (v : Bytes) : ChunkHeap :=
  fun a => if a = addr then (h addr).set i v else h a

/-- A concrete record used to instantiate universally quantified theorems. -/
def sampleA : Record :=
  { id := "a"
    timestamp := 2
    provider := strBytes "openai"
    method := strBytes "POST"
    url := strBytes "/openai/v1/chat/completions"
    upstream := strBytes "https://api.openai.com/v1"
    status := 200
    durationMS := 12
    requestBody := []
    responseBody := []
    stream := false
    responseChunks := []
    sizeReqBytes := 0
    sizeResBytes := 0
    modelHint := []
    error := none }

/-- A second concrete record with an earlier timestamp and stream chunks. -/
def sampleB : Record :=
  { id := "b"
    timestamp := 1
    provider := strBytes "ollama"
    method := strBytes "POST"
    url := strBytes "/ollama/api/chat"
    upstream := strBytes "http://localhost:11434"
    status := 500
    durationMS := 3
    requestBody := []
    responseBody := strBytes "xy"
    stream := true
    responseChunks := [strBytes "x", strBytes "y"]
    sizeReqBytes := 0
    sizeResBytes := 2
    modelHint := []
    error := none }

/-! ## Helper lemmas -/

lemma foldl_append_eq_flatten (l : List Bytes) :
    ∀ acc : Bytes, l.foldl (· ++ ·) acc = acc ++ l.flatten := by
  induction l with
  | nil => simp
  | cons p rest ih => intro acc; simp [ih, List.append_assoc]

lemma teeReaderRun_eq_flatten (reads : List Bytes) :
    teeReaderRun reads = reads.flatten := by
  simpa [teeReaderRun] using foldl_append_eq_flatten reads []

lemma streamFoldl_buffer (maxSize : Nat) (reads : List Bytes) :
    ∀ st : StreamCaptureState, st.buffer = st.chunks.flatten →
      (reads.foldl (streamCaptureRead maxSize) st).buffer =
        (reads.foldl (streamCaptureRead maxSize) st).chunks.flatten := by
  induction reads with
  | nil => intro st h; simpa using h
  | cons p rest ih =>
    intro st h
    simp only [List.foldl_cons]
    apply ih
    unfold streamCaptureRead
    split
    · simp [h]
    · exact h

lemma streamFoldl_chunks (maxSize : Nat) (reads : List Bytes) :
    ∀ st : StreamCaptureState, ∃ t : List Bytes,
      (reads.foldl (streamCaptureRead maxSize) st).chunks = st.chunks ++ t ∧
        t.Sublist reads := by
  induction reads with
  | nil => intro st; exact ⟨[], by simp⟩
  | cons p rest ih =>
    intro st
    simp only [List.foldl_cons]
    obtain ⟨t, ht, hsl⟩ := ih (streamCaptureRead maxSize st p)
    by_cases hc : 0 < p.length ∧ st.buffer.length < maxSize
    · refine ⟨p :: t, ?_, hsl.cons₂ p⟩
      rw [ht]; simp [streamCaptureRead, hc]
    · refine ⟨t, ?_, hsl.cons p⟩
      rw [ht]; simp [streamCaptureRead, hc]

lemma streamCaptureRun_buffer (maxSize : Nat) (reads : List Bytes) :
    (streamCaptureRun maxSize reads).buffer =
      (streamCaptureRun maxSize reads).chunks.flatten :=
  streamFoldl_buffer maxSize reads ⟨[], []⟩ rfl

lemma streamCaptureRun_chunks_sublist (maxSize : Nat) (reads : List Bytes) :
    (streamCaptureRun maxSize reads).chunks.Sublist reads := by
  obtain ⟨t, ht, hsl⟩ := streamFoldl_chunks maxSize reads ⟨[], []⟩
  simpa [streamCaptureRun, ht] using hsl

lemma deliveredToClient_foldl (g : StreamCaptureState → Bytes → StreamCaptureState)
    (reads : List Bytes) :
    ∀ acc : List Bytes × StreamCaptureState,
      (reads.foldl
        (fun (acc : List Bytes × StreamCaptureState) p =>
          (acc.1 ++ [p], g acc.2 p)) acc).1 = acc.1 ++ reads := by
  induction reads with
  | nil => intro acc; simp
  | cons p rest ih =>
    intro acc
    simp only [List.foldl_cons]
    simp [ih, List.append_assoc]

lemma deliveredToClient_eq (maxSize : Nat) (b : Bool) (reads : List Bytes) :
    deliveredToClient maxSize b reads = reads := by
  unfold deliveredToClient
  have hfun :
      (fun (acc : List Bytes × StreamCaptureState) p =>
        if b then (acc.1 ++ [p], streamCaptureRead maxSize acc.2 p)
        else (acc.1 ++ [p], acc.2)) =
      fun (acc : List Bytes × StreamCaptureState) p =>
        (acc.1 ++ [p], if b then streamCaptureRead maxSize acc.2 p else acc.2) := by
    funext acc p
    cases b <;> simp
  rw [hfun]
  simpa using
    deliveredToClient_foldl
      (fun st p => if b then streamCaptureRead maxSize st p else st) reads ([], ⟨[], []⟩)

lemma tsDescLe_trans (a b c : Record) :
    tsDescLe a b → tsDescLe b c → tsDescLe a c := by
  simp only [tsDescLe, decide_eq_true_eq]
  omega

lemma tsDescLe_total (a b : Record) : tsDescLe a b || tsDescLe b a := by
  simp only [tsDescLe]
  by_cases hab : b.timestamp ≤ a.timestamp <;> simp [hab] <;> omega

lemma pairwise_desc_mergeSort (l : List Record) :
    (l.mergeSort tsDescLe).Pairwise
      (fun a b : Record => b.timestamp ≤ a.timestamp) := by
  have h := @List.sorted_mergeSort Record tsDescLe tsDescLe_trans tsDescLe_total l
  exact h.imp (by intro a b hab; simpa [tsDescLe] using hab)

lemma matchesQuery_default_mod (r : Record) (off lim : Int) :
    matchesQuery r { defaultQuery with offset := off, limit := lim } = true := by
  simp [matchesQuery, defaultQuery]

lemma listMatches_default_mod (records : List Record) (off lim : Int) :
    listMatches records { defaultQuery with offset := off, limit := lim } =
      records.mergeSort tsDescLe := by
  unfold listMatches
  rw [List.filter_eq_self.mpr (fun r _ => matchesQuery_default_mod r off lim)]
  rfl

/-- Closed form of `Store.List` for non-negative offsets: the page is the
post-filter, post-sort sequence with `offset` dropped and then `limit`
taken (everything when `limit ≤ 0`), and the total is the match count. -/
lemma listRecords_spec (records : List Record) (q : Query) (h : 0 ≤ q.offset) :
    listRecords records q =
      some { page := ((listMatches records q).drop q.offset.toNat).take
               (if q.limit ≤ 0 then (listMatches records q).length else q.limit.toNat)
             total := (listMatches records q).length } := by
  simp only [listRecords]
  set ms := listMatches records q with hms
  set L : Int := (ms.length : Int) with hL
  by_cases hoff : q.offset > L
  · rw [if_pos hoff]
    rw [if_neg (show ¬ L < 0 by omega)]
    have hdropL : ms.drop L.toNat = [] :=
      List.drop_eq_nil_of_le (by omega)
    have hdropOff : ms.drop q.offset.toNat = [] :=
      List.drop_eq_nil_of_le (by omega)
    by_cases hstop : q.limit ≤ 0 ∨ L + q.limit > L
    · rw [if_pos hstop]
      simp [hdropL, hdropOff]
    · exact absurd hstop (by omega)
  · rw [if_neg hoff]
    rw [if_neg (show ¬ q.offset < 0 by omega)]
    by_cases hlim : q.limit ≤ 0
    · rw [if_pos (Or.inl hlim : q.limit ≤ 0 ∨ q.offset + q.limit > L), if_pos hlim]
      simp only [Option.some.injEq, ListResult.mk.injEq, and_true]
      have h1 : (L - q.offset).toNat = (ms.drop q.offset.toNat).length := by
        simp only [List.length_drop]; omega
      rw [h1, List.take_length]
      exact (List.take_of_length_le (by simp only [List.length_drop]; omega)).symm
    · by_cases hend : q.offset + q.limit > L
      · rw [if_pos (Or.inr hend : q.limit ≤ 0 ∨ q.offset + q.limit > L), if_neg hlim]
        simp only [Option.some.injEq, ListResult.mk.injEq, and_true]
        have h1 : (L - q.offset).toNat = (ms.drop q.offset.toNat).length := by
          simp only [List.length_drop]; omega
        rw [h1, List.take_length]
        exact (List.take_of_length_le (by simp only [List.length_drop]; omega)).symm
      · rw [if_neg (show ¬ (q.limit ≤ 0 ∨ q.offset + q.limit > L) by omega), if_neg hlim]
        have h1 : (q.offset + q.limit - q.offset).toNat = q.limit.toNat := by omega
        rw [h1]

/-! ## C1: what the upstream receives -/

/-- C1 counterexample: with a capture ceiling of 2 bytes and a client body
of 3 bytes, the body handed to the reverse proxy is not the original client
body — the bytes beyond the ceiling are lost, contrary to the claim that
forwarding is byte-for-byte including bytes beyond the ceiling. -/
theorem c1_counterexample :
    (captureRequestBody 2 [1, 2, 3]).forwardedBody ≠ [1, 2, 3] := by decide

/-- C1 amended: `captureRequestBody` forwards exactly the captured bytes,
namely the first `maxBytes` bytes of the client body; the forwarded body
equals the original byte-for-byte only when the body does not exceed the
ceiling, and the stored copy always equals the forwarded body. -/
theorem c1_forwarded_is_captured (maxBytes : Nat) (clientBody : Bytes) :
    (captureRequestBody maxBytes clientBody).forwardedBody = clientBody.take maxBytes ∧
    (captureRequestBody maxBytes clientBody).requestBody =
      (captureRequestBody maxBytes clientBody).forwardedBody ∧
    (clientBody.length ≤ maxBytes →
      (captureRequestBody maxBytes clientBody).forwardedBody = clientBody) := by
  refine ⟨rfl, rfl, fun h => ?_⟩
  simp [captureRequestBody, List.take_of_length_le h]

/-- C1 witness: the amended theorem applied to a 2-byte body under a 5-byte
ceiling. -/
theorem c1_witness :
    (captureRequestBody 5 [7, 8]).forwardedBody = [7, 8] :=
  (c1_forwarded_is_captured 5 [7, 8]).2.2 (by decide)

/-! ## C2: capture failures and the proxied client -/

/-- C2 counterexample: a request body whose read fails makes `ServeHTTP`
answer the client with an HTTP error (500 "Failed to process request"), so a
capture-path failure is surfaced to the proxied client. -/
theorem c2_counterexample :
    (serveHTTPRequestPhase 5 (Except.error ())).isHttpError = true := rfl

/-- C2 amended: a request-body capture failure is surfaced to the client as
HTTP 500 "Failed to process request" (the request is not proxied); when the
request body reads successfully the captured bytes are forwarded, and on the
response side capture never alters the byte groups delivered to the client. -/
theorem c2_error_surfacing (maxBytes maxSize : Nat) (isStream : Bool)
    (reads : List Bytes) :
    serveHTTPRequestPhase maxBytes (Except.error ()) =
      ServeOutcome.httpError 500 "Failed to process request" ∧
    (∀ body : Bytes,
      serveHTTPRequestPhase maxBytes (Except.ok body) =
        ServeOutcome.response (body.take maxBytes)) ∧
    deliveredToClient maxSize isStream reads = reads := by
  exact ⟨rfl, fun body => rfl, deliveredToClient_eq maxSize isStream reads⟩

/-! ## C3: non-stream capture and the ceiling -/

/-- C3 counterexample: a non-stream response of 3 bytes under a 2-byte
ceiling stores a `response_body` longer than the ceiling — the tee on the
non-stream path is unbounded. -/
theorem c3_counterexample :
    ¬ ((captureResponseBody 2 (strBytes "application/json") [] [[1, 2, 3]]).responseBody.length ≤ 2) := by
  decide

/-- C3 amended: for non-stream responses the capture ceiling is not applied
at all — the stored `response_body` is the full concatenation of the bytes
read from the upstream, and `size_res_bytes` equals its exact length (so the
size does reflect true wire bytes, but the stored copy is uncapped). -/
theorem c3_nonstream_uncapped (maxSize : Nat) (ct te : Bytes)
    (reads : List Bytes) (h : classifyStream ct te = false) :
    (captureResponseBody maxSize ct te reads).responseBody = reads.flatten ∧
    (captureResponseBody maxSize ct te reads).sizeResBytes = reads.flatten.length := by
  simp [captureResponseBody, h, teeReaderRun_eq_flatten]

/-- C3 witness: the amended theorem applied to a plain JSON response. -/
theorem c3_witness :
    (captureResponseBody 2 (strBytes "application/json") [] [[1, 2, 3]]).responseBody =
      [[1, 2, 3]].flatten ∧
    (captureResponseBody 2 (strBytes "application/json") [] [[1, 2, 3]]).sizeResBytes =
      [[1, 2, 3]].flatten.length :=
  c3_nonstream_uncapped 2 (strBytes "application/json") [] [[1, 2, 3]] (by decide)

/-! ## C4: stream chunks versus the stream body -/

/-- C4 confirmed: for stream responses, the in-order concatenation of the
captured chunks equals the stored `response_body`, and the chunk list is a
sublist of the sequence of upstream byte groups in read order (each captured
transport-level read contributes exactly one chunk). -/
theorem c4_chunks_concat_body (maxSize : Nat) (ct te : Bytes)
    (reads : List Bytes) (h : classifyStream ct te = true) :
    (captureResponseBody maxSize ct te reads).responseChunks.flatten =
      (captureResponseBody maxSize ct te reads).responseBody ∧
    (captureResponseBody maxSize ct te reads).responseChunks.Sublist reads := by
  have hbuf := streamCaptureRun_buffer maxSize reads
  have hsl := streamCaptureRun_chunks_sublist maxSize reads
  simp only [captureResponseBody, h, if_pos]
  by_cases hc : 0 < (streamCaptureRun maxSize reads).chunks.length
  · simp only [hc, if_pos]
    exact ⟨hbuf.symm, hsl⟩
  · have hnil : (streamCaptureRun maxSize reads).chunks = [] := by
      simpa using List.eq_nil_of_length_eq_zero (by omega)
    simp [hc, hbuf, hnil]

/-- C4 witness: an event-stream response of two reads captures two chunks
whose concatenation is the stored body. -/
theorem c4_witness :
    (captureResponseBody 10 (strBytes "text/event-stream") [] [[1], [2]]).responseChunks.flatten =
      (captureResponseBody 10 (strBytes "text/event-stream") [] [[1], [2]]).responseBody ∧
    (captureResponseBody 10 (strBytes "text/event-stream") [] [[1], [2]]).responseChunks.Sublist
      [[1], [2]] :=
  c4_chunks_concat_body 10 (strBytes "text/event-stream") [] [[1], [2]] (by decide)

/-! ## C10: the finalization callback runs exactly once -/

/-- C10 confirmed: starting from an unclosed `bodyCapture`, any positive
number of `Close` calls leaves the state with the callback having run
exactly once and the record holding the snapshot installed by the first
close; closes after the first are no-ops. -/
theorem c10_onclose_once (snapshot r0 : ResCapture) (n : Nat) (h : 1 ≤ n) :
    (bodyCaptureClose snapshot)^[n] ⟨false, 0, r0⟩ =
      ⟨true, 1, snapshot⟩ := by
  obtain ⟨m, rfl⟩ : ∃ m, n = m + 1 := ⟨n - 1, by omega⟩
  rw [Function.iterate_succ_apply]
  have h1 : bodyCaptureClose snapshot ⟨false, 0, r0⟩ = ⟨true, 1, snapshot⟩ := rfl
  rw [h1]
  exact Function.iterate_fixed rfl m

/-- C10 witness: three closes of a concrete capture state behave as one. -/
theorem c10_witness :
    (bodyCaptureClose ⟨true, [1], 1, [[1]]⟩)^[3]
        ⟨false, 0, ⟨false, [], 0, []⟩⟩ =
      ⟨true, 1, ⟨true, [1], 1, [[1]]⟩⟩ :=
  c10_onclose_once ⟨true, [1], 1, [[1]]⟩ ⟨false, [], 0, []⟩ 3 (by decide)

/-! ## C5: pagination semantics of List -/

/-- C5 confirmed: for non-negative offsets, `List` applies offset then limit
to the post-filter post-sort sequence and never errors; an offset at or
beyond the number of matches yields an empty page, and `limit ≤ 0` returns
every remaining match. -/
theorem c5_offset_then_limit (records : List Record) (q : Query) (h : 0 ≤ q.offset) :
    listRecords records q =
      some { page := ((listMatches records q).drop q.offset.toNat).take
               (if q.limit ≤ 0 then (listMatches records q).length else q.limit.toNat)
             total := (listMatches records q).length } ∧
    (((listMatches records q).length : Int) ≤ q.offset →
      listRecords records q =
        some { page := [], total := (listMatches records q).length }) ∧
    (q.limit ≤ 0 →
      listRecords records q =
        some { page := (listMatches records q).drop q.offset.toNat
               total := (listMatches records q).length }) := by
  have hspec := listRecords_spec records q h
  refine ⟨hspec, fun hbig => ?_, fun hlim => ?_⟩
  · rw [hspec]
    have hdrop : (listMatches records q).drop q.offset.toNat = [] :=
      List.drop_eq_nil_of_le (by omega)
    simp [hdrop]
  · rw [hspec, if_pos hlim]
    have hle : ((listMatches records q).drop q.offset.toNat).length ≤
        (listMatches records q).length := by
      simp only [List.length_drop]; omega
    rw [List.take_of_length_le hle]

/-- C5 witness: one stored record, offset 5 past the single match, limit 0 —
the page is empty and no error occurs. -/
theorem c5_witness :
    listRecords [sampleA] { defaultQuery with offset := 5, limit := 0 } =
      some { page := [], total := 1 } := by
  have hm : listMatches [sampleA]
      { defaultQuery with offset := (5 : Int), limit := (0 : Int) } = [sampleA] := by
    rw [listMatches_default_mod]; simp
  have h := (c5_offset_then_limit [sampleA]
      { defaultQuery with offset := 5, limit := 0 } (by decide)).2.1
      (by rw [hm]; decide)
  rw [h, hm]
  rfl

/-! ## C6: default listing order and total -/

/-- C6 confirmed: with no filters and default paging, `List` succeeds, the
returned page is ordered by descending timestamp (newest first), and the
returned total is the full record count — and stays the full count for every
non-negative offset and every limit. -/
theorem c6_default_order_total (records : List Record) :
    (∃ res, listRecords records defaultQuery = some res ∧
      res.page.Pairwise (fun a b : Record => b.timestamp ≤ a.timestamp) ∧
      res.total = records.length) ∧
    (∀ off lim : Int, 0 ≤ off →
      ∀ res,
        listRecords records { defaultQuery with offset := off, limit := lim } = some res →
          res.total = records.length) := by
  constructor
  · have hdq : defaultQuery = { defaultQuery with offset := (0 : Int), limit := (50 : Int) } := rfl
    have hspec := listRecords_spec records defaultQuery (by decide)
    refine ⟨_, hspec, ?_, ?_⟩
    · have hsorted : (listMatches records defaultQuery).Pairwise
          (fun a b : Record => b.timestamp ≤ a.timestamp) := by
        rw [hdq, listMatches_default_mod]
        exact pairwise_desc_mergeSort records
      exact hsorted.sublist
        ((List.take_sublist _ _).trans (List.drop_sublist _ _))
    · show (listMatches records defaultQuery).length = records.length
      rw [hdq, listMatches_default_mod]
      simp
  · intro off lim hoff res hres
    have hspec := listRecords_spec records { defaultQuery with offset := off, limit := lim } hoff
    rw [hspec] at hres
    have := Option.some.inj hres
    rw [← this]
    show (listMatches records { defaultQuery with offset := off, limit := lim }).length =
      records.length
    rw [listMatches_default_mod]
    simp

/-- C6 witness: the quantified total-independence part applied to a concrete
one-record store at offset 1, limit 7. -/
theorem c6_witness :
    (ListResult.mk [] 1).total = ([sampleA] : List Record).length := by
  have hm : listMatches [sampleA]
      { defaultQuery with offset := (1 : Int), limit := (7 : Int) } = [sampleA] := by
    rw [listMatches_default_mod]; simp
  have hres : listRecords [sampleA] { defaultQuery with offset := 1, limit := 7 } =
      some ⟨[], 1⟩ := by
    rw [listRecords_spec _ _ (by decide), hm]
    decide
  exact (c6_default_order_total [sampleA]).2 1 7 (by decide) ⟨[], 1⟩ hres

/-! ## C7: NDJSON export -/

lemma mem_intersperse {α : Type} (sep : α) (x : α) :
    ∀ l : List α, x ∈ List.intersperse sep l → x = sep ∨ x ∈ l := by
  intro l
  induction l with
  | nil => intro hx; simp at hx
  | cons a t ih =>
    intro hx
    cases t with
    | nil =>
      simp at hx
      exact Or.inr (by simp [hx])
    | cons b t2 =>
      rw [List.intersperse_cons_cons] at hx
      rcases List.mem_cons.mp hx with rfl | hx
      · exact Or.inr (List.mem_cons_self _ _)
      · rcases List.mem_cons.mp hx with rfl | hx
        · exact Or.inl rfl
        · rcases ih hx with h | h
          · exact Or.inl h
          · exact Or.inr (List.mem_cons_of_mem _ h)

lemma hexDig_ne10 (n : Nat) : hexDig n ≠ 10 := by
  unfold hexDig
  split <;> omega

lemma escByte_not10 (b : Nat) : 10 ∉ escByte b := by
  unfold escByte
  split
  · decide
  · split
    · decide
    · split
      · decide
      · split
        · decide
        · split
          · decide
          · split
            · intro hx
              simp only [List.mem_cons, List.not_mem_nil, or_false] at hx
              rcases hx with h | h | h | h | h | h
              · omega
              · omega
              · omega
              · omega
              · exact hexDig_ne10 _ h.symm
              · exact hexDig_ne10 _ h.symm
            · intro hx
              simp only [List.mem_cons, List.not_mem_nil, or_false] at hx
              omega

lemma jsonStr_not10 (s : Bytes) : 10 ∉ jsonStr s := by
  intro hx
  unfold jsonStr at hx
  rcases List.mem_cons.mp hx with h | hx
  · omega
  · rcases List.mem_append.mp hx with hx | hx
    · rcases List.mem_flatten.mp hx with ⟨l, hl, hmem⟩
      rcases List.mem_map.mp hl with ⟨b, _, rfl⟩
      exact escByte_not10 b hmem
    · simp only [List.mem_cons, List.not_mem_nil, or_false] at hx
      omega

lemma natDigsAux_mem (x : Nat) :
    ∀ n : Nat, ∀ acc : Bytes, x ∈ natDigsAux n acc → x ∈ acc ∨ (48 ≤ x ∧ x ≤ 57) := by
  intro n
  induction n using Nat.strong_induction_on with
  | _ n ih =>
    cases n with
    | zero =>
      intro acc hx
      unfold natDigsAux at hx
      exact Or.inl hx
    | succ m =>
      intro acc hx
      unfold natDigsAux at hx
      have hlt : (m + 1) / 10 < m + 1 := Nat.div_lt_self (Nat.succ_pos m) (by omega)
      rcases ih _ hlt _ hx with h | h
      · rcases List.mem_cons.mp h with h | h
        · right; omega
        · exact Or.inl h
      · exact Or.inr h

lemma natBytes_not10 (n : Nat) : 10 ∉ natBytes n := by
  unfold natBytes
  split
  · decide
  · intro hx
    rcases natDigsAux_mem 10 n [] hx with h | h
    · simp at h
    · omega

lemma intBytes_not10 (i : Int) : 10 ∉ intBytes i := by
  unfold intBytes
  split
  · intro hx
    rcases List.mem_cons.mp hx with h | h
    · omega
    · exact natBytes_not10 _ h
  · exact natBytes_not10 _

lemma tsField_not10 (t : Nat) : 10 ∉ tsField t := by
  intro hx
  unfold tsField at hx
  rcases List.mem_cons.mp hx with h | hx
  · omega
  · rcases List.mem_append.mp hx with hx | hx
    · exact natBytes_not10 _ hx
    · simp only [List.mem_cons, List.not_mem_nil, or_false] at hx
      omega

lemma boolBytes_not10 (b : Bool) : 10 ∉ boolBytes b := by
  cases b <;> decide

lemma jsonStrArr_not10 (xs : List Bytes) : 10 ∉ jsonStrArr xs := by
  intro hx
  unfold jsonStrArr at hx
  rcases List.mem_cons.mp hx with h | hx
  · omega
  · rcases List.mem_append.mp hx with hx | hx
    · rcases List.mem_flatten.mp hx with ⟨l, hl, hmem⟩
      rcases mem_intersperse _ _ _ hl with rfl | h
      · simp at hmem
      · rcases List.mem_map.mp h with ⟨s, _, rfl⟩
        exact jsonStr_not10 s hmem
    · simp only [List.mem_cons, List.not_mem_nil, or_false] at hx
      omega

lemma jfield_not10 (key : String) (v : Bytes)
    (hk : 10 ∉ strBytes key) (hv : 10 ∉ v) : 10 ∉ jfield key v := by
  intro hx
  rcases List.mem_append.mp hx with h | h
  · exact hk h
  · exact hv h

lemma encodeFields_not10 (r : Record) : ∀ f ∈ encodeFields r, 10 ∉ f := by
  unfold encodeFields
  intro f hf
  rcases List.mem_append.mp hf with hf4 | herr
  · rcases List.mem_append.mp hf4 with hf3 | hhint
    · rcases List.mem_append.mp hf3 with hf2 | hsizes
      · rcases List.mem_append.mp hf2 with hbase | hchunks
        · simp only [List.mem_cons, List.not_mem_nil, or_false] at hbase
          rcases hbase with rfl | rfl | rfl | rfl | rfl | rfl | rfl | rfl | rfl | rfl | rfl
          · exact jfield_not10 _ _ (by decide) (jsonStr_not10 _)
          · exact jfield_not10 _ _ (by decide) (tsField_not10 _)
          · exact jfield_not10 _ _ (by decide) (jsonStr_not10 _)
          · exact jfield_not10 _ _ (by decide) (jsonStr_not10 _)
          · exact jfield_not10 _ _ (by decide) (jsonStr_not10 _)
          · exact jfield_not10 _ _ (by decide) (jsonStr_not10 _)
          · exact jfield_not10 _ _ (by decide) (intBytes_not10 _)
          · exact jfield_not10 _ _ (by decide) (intBytes_not10 _)
          · exact jfield_not10 _ _ (by decide) (jsonStr_not10 _)
          · exact jfield_not10 _ _ (by decide) (jsonStr_not10 _)
          · exact jfield_not10 _ _ (by decide) (boolBytes_not10 _)
        · by_cases hc : r.responseChunks.isEmpty
          · simp [hc] at hchunks
          · simp only [hc, Bool.false_eq_true, not_false_eq_true,
              List.mem_cons, List.not_mem_nil, or_false, if_false] at hchunks
            subst hchunks
            exact jfield_not10 _ _ (by decide) (jsonStrArr_not10 _)
      · simp only [List.mem_cons, List.not_mem_nil, or_false] at hsizes
        rcases hsizes with rfl | rfl
        · exact jfield_not10 _ _ (by decide) (intBytes_not10 _)
        · exact jfield_not10 _ _ (by decide) (intBytes_not10 _)
    · by_cases hm : r.modelHint.isEmpty
      · simp [hm] at hhint
      · simp only [hm, Bool.false_eq_true, not_false_eq_true,
          List.mem_cons, List.not_mem_nil, or_false, if_false] at hhint
        subst hhint
        exact jfield_not10 _ _ (by decide) (jsonStr_not10 _)
  · cases he : r.error with
    | none => rw [he] at herr; simp at herr
    | some e =>
      rw [he] at herr
      simp only [List.mem_cons, List.not_mem_nil, or_false] at herr
      subst herr
      exact jfield_not10 _ _ (by decide) (jsonStr_not10 _)

lemma encodeRecord_not10 (r : Record) : 10 ∉ encodeRecord r := by
  intro hx
  unfold encodeRecord at hx
  rcases List.mem_cons.mp hx with h | hx
  · omega
  · rcases List.mem_append.mp hx with hx | hx
    · rcases List.mem_flatten.mp hx with ⟨l, hl, hmem⟩
      rcases mem_intersperse _ _ _ hl with rfl | h
      · simp at hmem
      · exact encodeFields_not10 r l h hmem
    · simp only [List.mem_cons, List.not_mem_nil, or_false] at hx
      omega

lemma splitNl_ne_nil (bs : Bytes) : splitNl bs ≠ [] := by
  induction bs with
  | nil => simp [splitNl]
  | cons b t ih =>
    rw [splitNl]
    cases h : splitNl t with
    | nil => simp
    | cons hh rest =>
      show (if b = 10 then [] :: hh :: rest else (b :: hh) :: rest) ≠ []
      split <;> simp

lemma splitNl_append_nl (l rest : Bytes) (hl : 10 ∉ l) :
    splitNl (l ++ 10 :: rest) = l :: splitNl rest := by
  induction l with
  | nil =>
    simp only [List.nil_append]
    rw [splitNl]
    cases hsp : splitNl rest with
    | nil => exact absurd hsp (splitNl_ne_nil rest)
    | cons hh r2 =>
      show (if (10 : Nat) = 10 then [] :: hh :: r2 else (10 :: hh) :: r2) = [] :: hh :: r2
      simp
  | cons b t ih =>
    simp only [List.mem_cons, not_or] at hl
    obtain ⟨hb, ht⟩ := hl
    simp only [List.cons_append]
    rw [splitNl, ih ht]
    show (if b = 10 then [] :: t :: splitNl rest else (b :: t) :: splitNl rest) =
      (b :: t) :: splitNl rest
    rw [if_neg (show ¬ b = 10 by omega)]

lemma splitNl_ndjson (pages : List Bytes) (h : ∀ p ∈ pages, 10 ∉ p) :
    splitNl ((pages.map (fun p => p ++ [10])).flatten) = pages ++ [[]] := by
  induction pages with
  | nil => simp [splitNl]
  | cons p ps ih =>
    simp only [List.map_cons, List.flatten_cons]
    have hassoc : (p ++ [10]) ++ (ps.map (fun q => q ++ [10])).flatten =
        p ++ 10 :: (ps.map (fun q => q ++ [10])).flatten := by
      simp [List.append_assoc]
    rw [hassoc, splitNl_append_nl _ _ (h p (List.mem_cons_self p ps)),
      ih (fun q hq => h q (List.mem_cons_of_mem _ hq))]
    rfl

/-- `listMatches` reads only the filter and sort fields of the query, so
changing pagination fields leaves it unchanged. -/
lemma listMatches_pagination_indep (records : List Record) (q : Query)
    (off lim : Int) :
    listMatches records { q with offset := off, limit := lim } =
      listMatches records q := rfl

/-- C7 confirmed: the export endpoint yields exactly the full filtered
(and sorted) set of matching records — pagination fields of the supplied
query are ignored — encoded as one JSON object per newline-terminated line:
splitting the output at newline bytes recovers precisely the encoded
records (plus the empty trailer after the final newline). -/
theorem c7_export_ignores_pagination (records : List Record) (q : Query) :
    handleExport records q =
      some ((listMatches records q).map (fun r => encodeRecord r ++ [10])).flatten ∧
    (∀ off lim : Int,
      handleExport records { q with offset := off, limit := lim } =
        handleExport records q) ∧
    (∀ out, handleExport records q = some out →
      splitNl out = (listMatches records q).map encodeRecord ++ [[]]) := by
  have hfull : handleExport records q =
      some ((listMatches records q).map (fun r => encodeRecord r ++ [10])).flatten := by
    unfold handleExport exportNDJSON
    rw [listRecords_spec records { q with limit := 0, offset := 0 } (le_refl 0)]
    simp [listMatches_pagination_indep]
  refine ⟨hfull, fun off lim => rfl, fun out hout => ?_⟩
  rw [hfull] at hout
  rw [← Option.some.inj hout]
  have hmap : (listMatches records q).map (fun r => encodeRecord r ++ [10]) =
      ((listMatches records q).map encodeRecord).map (fun p => p ++ [10]) := by
    rw [List.map_map]
    rfl
  rw [hmap]
  refine splitNl_ndjson _ ?_
  intro p hp
  rcases List.mem_map.mp hp with ⟨r, _, rfl⟩
  exact encodeRecord_not10 r

/-- C7 witness: the line-splitting consequence instantiated on a one-record
store with the default query. -/
theorem c7_witness :
    splitNl (((listMatches [sampleA] defaultQuery).map
        (fun r => encodeRecord r ++ [10])).flatten) =
      (listMatches [sampleA] defaultQuery).map encodeRecord ++ [[]] :=
  (c7_export_ignores_pagination [sampleA] defaultQuery).2.2 _
    (c7_export_ignores_pagination [sampleA] defaultQuery).1

/-! ## C8: chunk replay -/

/-- C8 confirmed: for a stored stream record with at least one captured
chunk, replay emits exactly one `data:` SSE frame per chunk in capture
order; a stored record that is not a stream or has no chunks yields the 404
"No chunks available for this record" outcome, which is distinct from the
404 "Record not found" outcome produced for a missing id. -/
theorem c8_replay_frames (s : List (String × Record)) (id : String) :
    (getRecord s id = none →
      handleRequestChunks s id = ChunksOutcome.httpError 404 "Record not found") ∧
    (∀ r, getRecord s id = some r → r.stream = true → r.responseChunks ≠ [] →
      handleRequestChunks s id = ChunksOutcome.sse (r.responseChunks.map sseFrame)) ∧
    (∀ r, getRecord s id = some r → (r.stream = false ∨ r.responseChunks = []) →
      handleRequestChunks s id =
        ChunksOutcome.httpError 404 "No chunks available for this record") ∧
    ChunksOutcome.httpError 404 "No chunks available for this record" ≠
      ChunksOutcome.httpError 404 "Record not found" := by
  refine ⟨fun hnone => ?_, fun r hr hs hc => ?_, fun r hr hcase => ?_, by decide⟩
  · unfold handleRequestChunks
    rw [hnone]
  · unfold handleRequestChunks
    rw [hr]
    simp [hs, List.isEmpty_iff, hc]
  · unfold handleRequestChunks
    rw [hr]
    rcases hcase with hs | hc
    · simp [hs]
    · simp [hc]

/-- C8 witness: a stored two-chunk stream record replays as two SSE frames. -/
theorem c8_witness :
    handleRequestChunks [("b", sampleB)] "b" =
      ChunksOutcome.sse (sampleB.responseChunks.map sseFrame) :=
  (c8_replay_frames [("b", sampleB)] "b").2.1 sampleB (by decide) (by decide)
    (by decide)

/-! ## C9: defensive copies and the shared chunk array -/

/-- C9 counterexample: save a record whose chunk slice points at address 0
holding `["a"]`; the caller then mutates element 0 of its own record's
chunk slice to `"x"`.  The record subsequently observable through the store
shows `["x"]`, not the saved `["a"]` — the shallow copy shares the
`response_chunks` backing array, refuting the claim. -/
theorem c9_counterexample :
    (getRef (saveRef [] ⟨"a", [], 0⟩) "a").map
        (observedChunks (writeChunkAt (fun _ => [[97]]) 0 0 [120])) ≠
      some [[97]] := by decide

/-- C9 amended: `Save` stores the shallow struct copy `record := *r`, so the
store returns exactly the saved value (field-level reassignment by the
caller is invisible), but the returned struct carries the caller's
`chunksAddr`, so in-place element mutation through the caller's chunk slice
is observable through every record later read from the store. -/
theorem c9_shallow_copy (s : List (String × RecordRef)) (r : RecordRef)
    (h : ChunkHeap) (i : Nat) (v : Bytes) :
    getRef (saveRef s r) r.id = some r ∧
    (∀ rr, getRef (saveRef s r) r.id = some rr →
      rr.chunksAddr = r.chunksAddr ∧
      observedChunks (writeChunkAt h r.chunksAddr i v) rr =
        (h r.chunksAddr).set i v) := by
  have h1 : getRef (saveRef s r) r.id = some r := by
    unfold getRef saveRef
    rw [List.find?_cons_of_pos _ (by simp)]
    rfl
  refine ⟨h1, fun rr hrr => ?_⟩
  rw [h1] at hrr
  obtain rfl : r = rr := Option.some.inj hrr
  refine ⟨rfl, ?_⟩
  unfold observedChunks writeChunkAt
  simp

/-- C9 witness: the sharing consequence of the amended theorem at the
counterexample's concrete input. -/
theorem c9_witness :
    observedChunks (writeChunkAt (fun _ => [[97]]) 0 0 [120])
        (⟨"a", [], 0⟩ : RecordRef) = [[120]] := by
  have h := ((c9_shallow_copy [] ⟨"a", [], 0⟩ (fun _ => [[97]]) 0 [120]).2
      ⟨"a", [], 0⟩ (by decide)).2
  exact h.trans (by decide)

end OpenAILogger
